import Mathlib

/-!
Shallow embedding of the camera transition controller of `src/main.js`
(the SkyCity walkthrough demo): the easing function `easeInOutCubic`,
the transition starter `flyToPreset`, the per-frame `applyFly` tick,
and the `userInteracted` interaction flag, together with proofs of the
behavioural properties claimed for them.

Numbers are modelled as exact rationals extended with the JavaScript
special values `Infinity`, `-Infinity` and `NaN`, because the only
division in the controller, `(now - fly.start) / (fly.seconds * 1000)`,
produces those values when `fly.seconds` is zero, and the completion
test `t >= 1` observes them.
-/

set_option maxHeartbeats 1000000

namespace SkyCity

/-- A JavaScript number as the fly controller uses it: an exact rational
(`fin`), positive infinity, negative infinity, or `NaN`. The special values
enter only through division and then propagate through the arithmetic. -/
inductive JRat where
  | fin : ℚ → JRat
  | posInf : JRat
  | negInf : JRat
  | nan : JRat
  deriving DecidableEq

namespace JRat

/-- JavaScript addition `a + b` on extended values. -/
def jadd : JRat → JRat → JRat
  | nan, _ => nan
  | _, nan => nan
  | fin a, fin b => fin (a + b)
  | posInf, negInf => nan
  | negInf, posInf => nan
  | posInf, _ => posInf
  | _, posInf => posInf
  | negInf, _ => negInf
  | _, negInf => negInf

/-- JavaScript negation `-a` on extended values. -/
def jneg : JRat → JRat
  | fin a => fin (-a)
  | posInf => negInf
  | negInf => posInf
  | nan => nan

/-- JavaScript subtraction `a - b` on extended values. -/
def jsub (a b : JRat) : JRat := jadd a (jneg b)

/-- JavaScript multiplication `a * b` on extended values; an infinity
times zero is `NaN`. -/
def jmul : JRat → JRat → JRat
  | nan, _ => nan
  | _, nan => nan
  | fin a, fin b => fin (a * b)
  | posInf, posInf => posInf
  | posInf, negInf => negInf
  | negInf, posInf => negInf
  | negInf, negInf => posInf
  | posInf, fin b => if 0 < b then posInf else if b < 0 then negInf else nan
  | fin a, posInf => if 0 < a then posInf else if a < 0 then negInf else nan
  | negInf, fin b => if 0 < b then negInf else if b < 0 then posInf else nan
  | fin a, negInf => if 0 < a then negInf else if a < 0 then posInf else nan

/-- JavaScript division `a / b` on extended values: a nonzero finite value
divided by zero gives a signed infinity, `0 / 0` gives `NaN`. -/
def jdiv : JRat → JRat → JRat
  | nan, _ => nan
  | _, nan => nan
  | fin a, fin b =>
      if b = 0 then (if 0 < a then posInf else if a < 0 then negInf else nan)
      else fin (a / b)
  | posInf, fin b => if 0 ≤ b then posInf else negInf
  | negInf, fin b => if 0 ≤ b then negInf else posInf
  | fin _, posInf => fin 0
  | fin _, negInf => fin 0
  | posInf, posInf => nan
  | posInf, negInf => nan
  | negInf, posInf => nan
  | negInf, negInf => nan

/-- JavaScript comparison `a < b`; any comparison with `NaN` is false. -/
def jlt : JRat → JRat → Bool
  | nan, _ => false
  | _, nan => false
  | fin a, fin b => decide (a < b)
  | negInf, posInf => true
  | negInf, fin _ => true
  | negInf, negInf => false
  | posInf, _ => false
  | fin _, posInf => true
  | fin _, negInf => false

/-- The completion test `t >= 1` of `applyFly`; false on `NaN`. -/
def jge1 : JRat → Bool
  | fin a => decide (1 ≤ a)
  | posInf => true
  | negInf => false
  | nan => false

/-- `Math.max(0, t)`: `NaN` propagates, `-Infinity` is clamped to `0`. -/
def jmax0 : JRat → JRat
  | nan => nan
  | posInf => posInf
  | negInf => fin 0
  | fin a => fin (max 0 a)

/-- `Math.min(1, t)`: `NaN` propagates, `Infinity` is clamped to `1`. -/
def jmin1 : JRat → JRat
  | nan => nan
  | posInf => fin 1
  | negInf => negInf
  | fin a => fin (min 1 a)

/-- `Math.pow(b, 3)` as used by the easing function. -/
def jpow3 : JRat → JRat
  | fin a => fin (a ^ 3)
  | posInf => posInf
  | negInf => negInf
  | nan => nan

end JRat

open JRat

/-- Line 132-134 of `src/main.js`, read over exact rationals:
`t < 0.5 ? 4*t*t*t : 1 - Math.pow(-2*t + 2, 3)/2`. -/
def easeInOutCubic (t : ℚ) : ℚ :=
  if t < 1/2 then 4 * t * t * t else 1 - (-2 * t + 2) ^ 3 / 2

/-- Line 132-134 of `src/main.js` over JavaScript extended values, exactly
as `applyFly` invokes it. -/
def easeJ (t : JRat) : JRat :=
  if jlt t (fin (1/2)) then jmul (jmul (jmul (fin 4) t) t) t
  else jsub (fin 1) (jdiv (jpow3 (jadd (jmul (fin (-2)) t) (fin 2))) (fin 2))

/-- An exact rational 3-vector (a `THREE.Vector3` whose components are
ordinary finite numbers). -/
@[ext]
structure Vec3 where
  x : ℚ
  y : ℚ
  z : ℚ
  deriving DecidableEq

/-- A 3-vector of JavaScript numbers: the camera position and the orbit
target live here, since a degenerate tick can write `NaN` into them. -/
@[ext]
structure JVec3 where
  x : JRat
  y : JRat
  z : JRat
  deriving DecidableEq

/-- Injection of a finite vector into JavaScript-number vectors. -/
def JVec3.ofRat (v : Vec3) : JVec3 := ⟨fin v.x, fin v.y, fin v.z⟩

/-- A camera preset / pose: position plus look-at target
(`{ pos, target }` in `src/main.js`). Presets are finite literals. -/
structure Pose where
  pos : Vec3
  target : Vec3
  deriving DecidableEq

/-- `THREE.Vector3.lerpVectors(v1, v2, alpha)` on one component:
`v1 + (v2 - v1) * alpha`. -/
def jlerp (a b t : JRat) : JRat := jadd a (jmul (jsub b a) t)

/-- `THREE.Vector3.lerpVectors(v1, v2, alpha)` componentwise. -/
def jlerpV (a b : JVec3) (t : JRat) : JVec3 :=
  ⟨jlerp a.x b.x t, jlerp a.y b.y t, jlerp a.z b.z t⟩

/-- The in-flight transition record built at line 137-145 of
`src/main.js`: `{ start, seconds, fromPos, toPos, fromTarget, toTarget,
onArrive }`. The callback is modelled as an opaque identifier. -/
structure Fly where
  start : ℚ
  seconds : ℚ
  fromPos : JVec3
  toPos : JVec3
  fromTarget : JVec3
  toTarget : JVec3
  onArrive : Option ℕ
  deriving DecidableEq

/-- The module-level mutable state of `src/main.js` that the transition
controller touches: the `fly` record (or `null`), the camera position,
the orbit-controls target, `controls.enabled`, the `userInteracted` flag,
and a log of the invoked arrival callbacks. -/
structure World where
  fly : Option Fly
  cameraPos : JVec3
  controlsTarget : JVec3
  controlsEnabled : Bool
  userInteracted : Bool
  arrivals : List ℕ
  deriving DecidableEq

/-- Lines 136-147 of `src/main.js`: `flyToPreset(preset, seconds, onArrive)`
called at time `now = performance.now()`. It overwrites `fly` with a fresh
record whose from-pose is the current camera pose, and disables manual
input (`controls.enabled = false`). -/
def flyToPreset (preset : Pose) (seconds : ℚ) (onArrive : Option ℕ)
    (now : ℚ) (w : World) : World :=
  { w with
    fly := some
      { start := now
        seconds := seconds
        fromPos := w.cameraPos
        toPos := JVec3.ofRat preset.pos
        fromTarget := w.controlsTarget
        toTarget := JVec3.ofRat preset.target
        onArrive := onArrive }
    controlsEnabled := false }

/-- Lines 149-165 of `src/main.js`: `applyFly()` at time
`now = performance.now()`. If no transition is active it does nothing.
Otherwise it computes the raw progress `t`, the eased clamped progress,
writes the interpolated camera position and orbit target, and if `t >= 1`
clears `fly`, re-enables manual input and invokes `onArrive`. -/
def applyFly (now : ℚ) (w : World) : World :=
  match w.fly with
  | none => w
  | some f =>
    let t : JRat := jdiv (fin (now - f.start)) (fin (f.seconds * 1000))
    let e : JRat := easeJ (jmin1 (jmax0 t))
    let w1 : World :=
      { w with
        cameraPos := jlerpV f.fromPos f.toPos e
        controlsTarget := jlerpV f.fromTarget f.toTarget e }
    if jge1 t then
      { w1 with
        fly := none
        controlsEnabled := true
        arrivals := w1.arrivals ++ f.onArrive.toList }
    else w1

/-- Line 97-101 of `src/main.js`: the desktop Home preset. -/
def PRESET_HOME : Pose :=
  ⟨⟨17624.882, 27630.32, -12916.264⟩, ⟨1788.92, -5766.223, -4642.796⟩⟩

/-- Line 103-107 of `src/main.js`: the desktop Fed street preset. -/
def PRESET_FED : Pose :=
  ⟨⟨8611.285, -10343.009, -17205.86⟩, ⟨6552.512, -8971.525, -2939.588⟩⟩

/-- Line 110-114 of `src/main.js`: the mobile-portrait Home preset. -/
def PRESET_HOME_MOBILE : Pose :=
  ⟨⟨16771.504, 44049.7, -14394.172⟩, ⟨2601.223, -5520.177, -1666.704⟩⟩

/-- Line 116-120 of `src/main.js`: the mobile-portrait Fed preset. -/
def PRESET_FED_MOBILE : Pose :=
  ⟨⟨9332.957, -7553.001, -22851.309⟩, ⟨6457.856, -8185.593, -2928.293⟩⟩

/-- Line 122-124 of `src/main.js`: `getPresetHome()`, selecting by the
device class `isMobilePortrait()`. -/
def getPresetHome (mobilePortrait : Bool) : Pose :=
  if mobilePortrait then PRESET_HOME_MOBILE else PRESET_HOME

/-- The state right after the model loads (line 209-213 of `src/main.js`):
no transition, camera at the Home preset for the device class, controls
enabled, no interaction recorded. -/
def initialWorld (mobilePortrait : Bool) : World :=
  { fly := none
    cameraPos := JVec3.ofRat (getPresetHome mobilePortrait).pos
    controlsTarget := JVec3.ofRat (getPresetHome mobilePortrait).target
    controlsEnabled := true
    userInteracted := false
    arrivals := [] }

/-- The externally triggered operations that touch the controller state:
a manual-input event (lines 65-72, setting `userInteracted`), a
`flyToPreset` call (button click or Escape key), a render-loop
`applyFly` tick, and a window resize (lines 393-407, which re-frames the
camera only before the first interaction). -/
inductive Op where
  | mark : Op
  | flyTo : Pose → ℚ → Option ℕ → ℚ → Op
  | tick : ℚ → Op
  | resize : Bool → Op

/-- One step of the event loop: interpretation of an `Op` on the world. -/
def run : Op → World → World
  | Op.mark, w => { w with userInteracted := true }
  | Op.flyTo p s cb n, w => flyToPreset p s cb n w
  | Op.tick n, w => applyFly n w
  | Op.resize mobilePortrait, w =>
      if w.userInteracted then w
      else
        { w with
          cameraPos := JVec3.ofRat (getPresetHome mobilePortrait).pos
          controlsTarget := JVec3.ofRat (getPresetHome mobilePortrait).target }

/-- Run a whole event sequence from a state. -/
def runAll (ops : List Op) (w : World) : World :=
  ops.foldl (fun s o => run o s) w

/-- Spec-side clamp of the normalized progress into `[0, 1]`. -/
def clamp01 (t : ℚ) : ℚ := min 1 (max 0 t)

/-- Spec-side linear interpolation of finite vectors by a scalar. -/
def ratLerpV (a b : Vec3) (t : ℚ) : Vec3 :=
  ⟨a.x + (b.x - a.x) * t, a.y + (b.y - a.y) * t, a.z + (b.z - a.z) * t⟩

/-- Spec-side convex combination `(1 - e) * a + e * b` of finite vectors. -/
def convexV (a b : Vec3) (e : ℚ) : Vec3 :=
  ⟨(1 - e) * a.x + e * b.x, (1 - e) * a.y + e * b.y, (1 - e) * a.z + e * b.z⟩

/-- Run a sequence of render-loop ticks (`applyFly` calls) at the given
times, in order. -/
def tickAll (ts : List ℚ) (w : World) : World :=
  ts.foldl (fun s n => applyFly n s) w

/-- A bare world used as a concrete base point in scenario theorems. -/
def w0 : World :=
  { fly := none
    cameraPos := JVec3.ofRat ⟨0, 0, 0⟩
    controlsTarget := JVec3.ofRat ⟨0, 0, 0⟩
    controlsEnabled := true
    userInteracted := false
    arrivals := [] }

@[simp]
lemma jadd_fin (a b : ℚ) : jadd (fin a) (fin b) = fin (a + b) := rfl

@[simp]
lemma jneg_fin (a : ℚ) : jneg (fin a) = fin (-a) := rfl

@[simp]
lemma jsub_fin (a b : ℚ) : jsub (fin a) (fin b) = fin (a - b) := by
  simp [jsub, sub_eq_add_neg]

@[simp]
lemma jmul_fin (a b : ℚ) : jmul (fin a) (fin b) = fin (a * b) := rfl

@[simp]
lemma jpow3_fin (a : ℚ) : jpow3 (fin a) = fin (a ^ 3) := rfl

@[simp]
lemma jmax0_fin (a : ℚ) : jmax0 (fin a) = fin (max 0 a) := rfl

@[simp]
lemma jmin1_fin (a : ℚ) : jmin1 (fin a) = fin (min 1 a) := rfl

@[simp]
lemma jge1_fin (a : ℚ) : jge1 (fin a) = decide (1 ≤ a) := rfl

@[simp]
lemma jlt_fin (a b : ℚ) : jlt (fin a) (fin b) = decide (a < b) := rfl

lemma jdiv_fin_of_ne (a b : ℚ) (hb : b ≠ 0) : jdiv (fin a) (fin b) = fin (a / b) := by
  simp [jdiv, hb]

@[simp]
lemma jdiv_fin_two (a : ℚ) : jdiv (fin a) (fin 2) = fin (a / 2) := by
  norm_num [jdiv]

lemma jdiv_fin_zero_pos (a : ℚ) (ha : 0 < a) : jdiv (fin a) (fin 0) = posInf := by
  simp [jdiv, ha]

lemma jdiv_fin_zero_zero : jdiv (fin 0) (fin 0) = nan := by
  simp [jdiv]

/-- The easing function over JavaScript values agrees with the rational
easing function on finite inputs. -/
lemma easeJ_fin (q : ℚ) : easeJ (fin q) = fin (easeInOutCubic q) := by
  simp [easeJ, easeInOutCubic]
  split_ifs <;> rfl

@[simp]
lemma jlerp_fin (a b t : ℚ) : jlerp (fin a) (fin b) (fin t) = fin (a + (b - a) * t) := by
  simp [jlerp]

lemma jlerpV_ofRat (a b : Vec3) (t : ℚ) :
    jlerpV (JVec3.ofRat a) (JVec3.ofRat b) (fin t) = JVec3.ofRat (ratLerpV a b t) := by
  simp [jlerpV, JVec3.ofRat, ratLerpV]

@[simp]
lemma jmax0_posInf : jmax0 posInf = posInf := rfl

@[simp]
lemma jmin1_posInf : jmin1 posInf = fin 1 := rfl

@[simp]
lemma jge1_posInf : jge1 posInf = true := rfl

@[simp]
lemma jmax0_nan : jmax0 nan = nan := rfl

@[simp]
lemma jmin1_nan : jmin1 nan = nan := rfl

@[simp]
lemma jge1_nan : jge1 nan = false := rfl

@[simp]
lemma jadd_nan_right (a : JRat) : jadd a nan = nan := by cases a <;> rfl

@[simp]
lemma jmul_nan_right (a : JRat) : jmul a nan = nan := by cases a <;> rfl

@[simp]
lemma easeJ_nan : easeJ nan = nan := rfl

@[simp]
lemma jlerp_nan (a b : JRat) : jlerp a b nan = nan := by
  simp [jlerp]

@[simp]
lemma jlerpV_nan (a b : JVec3) : jlerpV a b nan = ⟨nan, nan, nan⟩ := by
  simp [jlerpV]

lemma easeInOutCubic_zero : easeInOutCubic 0 = 0 := by norm_num [easeInOutCubic]

lemma easeInOutCubic_one : easeInOutCubic 1 = 1 := by norm_num [easeInOutCubic]

/-- Cubing is monotone on the nonnegative rationals. -/
lemma cube_le_cube {a b : ℚ} (ha : 0 ≤ a) (hab : a ≤ b) : a ^ 3 ≤ b ^ 3 := by
  nlinarith [mul_nonneg (sub_nonneg.mpr hab) (sq_nonneg (a + b)),
    mul_nonneg (sub_nonneg.mpr hab) (sq_nonneg (a - b))]

/-- The easing curve is monotonically non-decreasing on `[0, 1]`. -/
lemma easeInOutCubic_mono {t1 t2 : ℚ} (h0 : 0 ≤ t1) (h12 : t1 ≤ t2) (h1 : t2 ≤ 1) :
    easeInOutCubic t1 ≤ easeInOutCubic t2 := by
  unfold easeInOutCubic
  split_ifs with ha hb hb
  · nlinarith [cube_le_cube h0 h12]
  · have hu0 : 0 ≤ 2 - 2 * t2 := by linarith
    have hu1 : 2 - 2 * t2 ≤ 1 := by linarith [not_lt.mp hb]
    have hx : (2 - 2 * t2) ^ 3 ≤ 1 ^ 3 := cube_le_cube hu0 hu1
    have hy : t1 ^ 3 ≤ (1/2) ^ 3 := cube_le_cube h0 (le_of_lt ha)
    nlinarith [hx, hy]
  · exact absurd (lt_of_le_of_lt h12 hb) ha
  · have h2 : 0 ≤ 2 - 2 * t2 := by linarith
    have h3 : 2 - 2 * t2 ≤ 2 - 2 * t1 := by linarith
    nlinarith [cube_le_cube h2 h3]

/-- The easing curve maps `[0, 1]` into `[0, 1]`. -/
lemma easeInOutCubic_mem {t : ℚ} (h0 : 0 ≤ t) (h1 : t ≤ 1) :
    0 ≤ easeInOutCubic t ∧ easeInOutCubic t ≤ 1 := by
  constructor
  · have h := easeInOutCubic_mono (le_refl 0) h0 h1
    rwa [easeInOutCubic_zero] at h
  · have h := easeInOutCubic_mono h0 h1 (le_refl 1)
    rwa [easeInOutCubic_one] at h

lemma clamp01_mem (t : ℚ) : 0 ≤ clamp01 t ∧ clamp01 t ≤ 1 := by
  unfold clamp01
  exact ⟨le_min (by norm_num) (le_max_left 0 t), min_le_left 1 _⟩

lemma clamp01_of_one_le {t : ℚ} (h : 1 ≤ t) : clamp01 t = 1 := by
  unfold clamp01
  rw [max_eq_right (le_trans zero_le_one h), min_eq_left h]

lemma clamp01_of_nonpos {t : ℚ} (h : t ≤ 0) : clamp01 t = 0 := by
  unfold clamp01
  rw [max_eq_left h]
  norm_num

lemma clamp01_zero : clamp01 0 = 0 := clamp01_of_nonpos le_rfl

lemma ratLerpV_zero (a b : Vec3) : ratLerpV a b 0 = a := by
  ext <;> simp [ratLerpV]

lemma ratLerpV_one (a b : Vec3) : ratLerpV a b 1 = b := by
  ext <;> simp [ratLerpV]

lemma ratLerpV_eq_convexV (a b : Vec3) (e : ℚ) : ratLerpV a b e = convexV a b e := by
  ext <;> simp [ratLerpV, convexV] <;> ring

/-- A tick with no transition in flight leaves the world untouched
(the `if (!fly) return;` guard). -/
lemma applyFly_none {w : World} (h : w.fly = none) (now : ℚ) : applyFly now w = w := by
  simp [applyFly, h]

/-- Full evaluation of one tick over an active transition with finite
from/to vectors and nonzero duration. -/
lemma applyFly_proj (now st sec : ℚ) (fp tp ft tg : Vec3) (cb : Option ℕ) (w : World)
    (hf : w.fly = some ⟨st, sec, JVec3.ofRat fp, JVec3.ofRat tp,
      JVec3.ofRat ft, JVec3.ofRat tg, cb⟩)
    (hsec : sec ≠ 0) :
    applyFly now w =
      if 1 ≤ (now - st) / (sec * 1000) then
        { w with
          cameraPos := JVec3.ofRat
            (ratLerpV fp tp (easeInOutCubic (clamp01 ((now - st) / (sec * 1000)))))
          controlsTarget := JVec3.ofRat
            (ratLerpV ft tg (easeInOutCubic (clamp01 ((now - st) / (sec * 1000)))))
          fly := none
          controlsEnabled := true
          arrivals := w.arrivals ++ cb.toList }
      else
        { w with
          cameraPos := JVec3.ofRat
            (ratLerpV fp tp (easeInOutCubic (clamp01 ((now - st) / (sec * 1000)))))
          controlsTarget := JVec3.ofRat
            (ratLerpV ft tg (easeInOutCubic (clamp01 ((now - st) / (sec * 1000))))) } := by
  have hm : sec * 1000 ≠ 0 := mul_ne_zero hsec (by norm_num)
  simp only [applyFly, hf, jdiv_fin_of_ne _ _ hm, jmax0_fin, jmin1_fin, easeJ_fin,
    jlerpV_ofRat, jge1_fin, decide_eq_true_eq, clamp01]

/-- Full evaluation of one tick over an active zero-duration transition,
strictly after its start time: the raw progress is `Infinity`, which
clamps to `1` and completes the transition. -/
lemma applyFly_zero_proj (now st : ℚ) (fa fb fc fd : JVec3) (cb : Option ℕ) (w : World)
    (hf : w.fly = some ⟨st, 0, fa, fb, fc, fd, cb⟩) (hnow : st < now) :
    applyFly now w =
      { w with
        cameraPos := jlerpV fa fb (fin 1)
        controlsTarget := jlerpV fc fd (fin 1)
        fly := none
        controlsEnabled := true
        arrivals := w.arrivals ++ cb.toList } := by
  have h0 : jdiv (fin (now - st)) (fin ((0 : ℚ) * 1000)) = posInf := by
    rw [zero_mul]
    exact jdiv_fin_zero_pos _ (by linarith)
  simp only [applyFly, hf, h0, jmax0_posInf, jmin1_posInf, jge1_posInf, easeJ_fin,
    easeInOutCubic_one, if_true]

/-- One tick either leaves the transition, the input gate, the arrival log
and the interaction flag unchanged, or completes the current transition:
it clears `fly`, re-enables input and appends that transition's callback. -/
lemma applyFly_structure (n : ℚ) (w : World) :
    ((applyFly n w).arrivals = w.arrivals ∧ (applyFly n w).fly = w.fly
      ∧ (applyFly n w).controlsEnabled = w.controlsEnabled
      ∧ (applyFly n w).userInteracted = w.userInteracted)
    ∨ (∃ f, w.fly = some f ∧ (applyFly n w).fly = none
        ∧ (applyFly n w).controlsEnabled = true
        ∧ (applyFly n w).userInteracted = w.userInteracted
        ∧ (applyFly n w).arrivals = w.arrivals ++ f.onArrive.toList) := by
  cases hw : w.fly with
  | none => left; simp [applyFly, hw]
  | some f =>
    simp only [applyFly, hw]
    split_ifs with hc
    · right
      exact ⟨f, rfl, rfl, rfl, rfl, rfl⟩
    · left
      exact ⟨rfl, rfl, rfl, rfl⟩

@[simp]
lemma jmax0_negInf : jmax0 negInf = fin 0 := rfl

@[simp]
lemma jge1_negInf : jge1 negInf = false := rfl

lemma jdiv_fin_zero_neg {a : ℚ} (ha : a < 0) : jdiv (fin a) (fin 0) = negInf := by
  have h1 : ¬ (0 < a) := by linarith
  simp [jdiv, h1, ha]

/-- Full evaluation of one tick over an active zero-duration transition
strictly before its start time: the raw progress is `-Infinity`, which
clamps to `0`, and the transition does not complete. -/
lemma applyFly_zero_neg_proj (now st : ℚ) (fa fb fc fd : JVec3) (cb : Option ℕ)
    (w : World) (hf : w.fly = some ⟨st, 0, fa, fb, fc, fd, cb⟩) (hnow : now < st) :
    applyFly now w =
      { w with
        cameraPos := jlerpV fa fb (fin 0)
        controlsTarget := jlerpV fc fd (fin 0) } := by
  have h0 : jdiv (fin (now - st)) (fin ((0 : ℚ) * 1000)) = negInf := by
    rw [zero_mul]
    exact jdiv_fin_zero_neg (by linarith)
  have hmin : (min 1 0 : ℚ) = 0 := by norm_num
  simp only [applyFly, hf, h0, jmax0_negInf, jmin1_fin, hmin, easeJ_fin,
    easeInOutCubic_zero, jge1_negInf, Bool.false_eq_true, if_false]

/-- One op of the event loop preserves the gate invariant: manual input is
enabled exactly when no transition is in flight. -/
lemma run_enabled_iff (o : Op) (w : World)
    (h : w.controlsEnabled = true ↔ w.fly = none) :
    (run o w).controlsEnabled = true ↔ (run o w).fly = none := by
  cases o with
  | mark => exact h
  | flyTo p s cb n => simp [run, flyToPreset]
  | tick n =>
    show (applyFly n w).controlsEnabled = true ↔ (applyFly n w).fly = none
    rcases applyFly_structure n w with ⟨-, hfly, hen, -⟩ | ⟨g, -, hfly, hen, -, -⟩
    · rw [hfly, hen]; exact h
    · rw [hfly, hen]; simp
  | resize mp =>
    simp only [run]
    split_ifs
    · exact h
    · exact h

lemma runAll_enabled_iff (ops : List Op) (w : World)
    (h : w.controlsEnabled = true ↔ w.fly = none) :
    (runAll ops w).controlsEnabled = true ↔ (runAll ops w).fly = none := by
  induction ops generalizing w with
  | nil => exact h
  | cons o os ih => exact ih (run o w) (run_enabled_iff o w h)

/-- No op of the event loop ever resets the interaction flag. -/
lemma run_userInteracted_mono (o : Op) (w : World) (h : w.userInteracted = true) :
    (run o w).userInteracted = true := by
  cases o with
  | mark => rfl
  | flyTo p s cb n => exact h
  | tick n =>
    show (applyFly n w).userInteracted = true
    rcases applyFly_structure n w with ⟨-, -, -, hu⟩ | ⟨g, -, -, -, hu, -⟩ <;>
      rw [hu] <;> exact h
  | resize mp =>
    simp only [run]
    split_ifs
    all_goals exact h

lemma runAll_userInteracted_mono (ops : List Op) (w : World)
    (h : w.userInteracted = true) : (runAll ops w).userInteracted = true := by
  induction ops generalizing w with
  | nil => exact h
  | cons o os ih => exact ih (run o w) (run_userInteracted_mono o w h)

/-- If a callback id is not yet logged and is not the callback of the
transition in flight, no sequence of ticks ever logs it. -/
lemma tickAll_not_mem (k : ℕ) (ts : List ℚ) :
    ∀ w : World, k ∉ w.arrivals →
      (∀ f, w.fly = some f → f.onArrive ≠ some k) →
      k ∉ (tickAll ts w).arrivals := by
  induction ts with
  | nil => intro w h _; exact h
  | cons n ts ih =>
    intro w h hf
    have hstep : k ∉ (applyFly n w).arrivals ∧
        (∀ f, (applyFly n w).fly = some f → f.onArrive ≠ some k) := by
      rcases applyFly_structure n w with ⟨ha, hfly, -, -⟩ | ⟨f, hw, hfly, -, -, ha⟩
      · rw [ha, hfly]; exact ⟨h, hf⟩
      · constructor
        · rw [ha]
          intro hk
          rcases List.mem_append.mp hk with hk | hk
          · exact h hk
          · cases hcb : f.onArrive with
            | none => rw [hcb] at hk; simp [Option.toList] at hk
            | some m =>
              have hkm : k = m := by
                rw [hcb] at hk
                simpa [Option.toList] using hk
              exact (hf f hw) (by rw [hcb, hkm])
        · intro f' hf'
          rw [hfly] at hf'
          exact absurd hf' (by simp)
    exact ih (applyFly n w) hstep.1 hstep.2

/-- C1 (counterexample): a transition started with `durationSeconds = -1`
is not terminated by its first tick, 100 ms after start: the raw progress
`100 / (-1000)` is negative, so `t >= 1` never fires. The transition stays
active, `onArrive` is never invoked, and the camera is at the from-pose,
not the terminal pose — refuting the claim for negative durations. -/
theorem negDuration_firstTick_stalls :
    (applyFly 100 (flyToPreset ⟨⟨10, 0, 0⟩, ⟨0, 0, 0⟩⟩ (-1) (some 7) 0 w0)).fly ≠ none
    ∧ (applyFly 100 (flyToPreset ⟨⟨10, 0, 0⟩, ⟨0, 0, 0⟩⟩ (-1) (some 7) 0 w0)).arrivals = []
    ∧ (applyFly 100 (flyToPreset ⟨⟨10, 0, 0⟩, ⟨0, 0, 0⟩⟩ (-1) (some 7) 0 w0)).cameraPos
        ≠ JVec3.ofRat ⟨10, 0, 0⟩ := by
  have hp := applyFly_proj 100 0 (-1) ⟨0, 0, 0⟩ ⟨10, 0, 0⟩ ⟨0, 0, 0⟩ ⟨0, 0, 0⟩ (some 7)
    (flyToPreset ⟨⟨10, 0, 0⟩, ⟨0, 0, 0⟩⟩ (-1) (some 7) 0 w0) rfl (by norm_num)
  rw [if_neg (by norm_num)] at hp
  have hc : clamp01 ((100 - 0) / (-1 * 1000) : ℚ) = 0 := clamp01_of_nonpos (by norm_num)
  rw [hp]
  refine ⟨by simp [flyToPreset], rfl, ?_⟩
  show JVec3.ofRat (ratLerpV ⟨0, 0, 0⟩ ⟨10, 0, 0⟩
    (easeInOutCubic (clamp01 ((100 - 0) / (-1 * 1000))))) ≠ JVec3.ofRat ⟨10, 0, 0⟩
  rw [hc, easeInOutCubic_zero, ratLerpV_zero]
  intro hcontra
  have := congrArg (fun v => v.x) hcontra
  simp only [JVec3.ofRat] at this
  exact absurd (JRat.fin.inj this) (by norm_num)

/-- C1 (amended): a transition started with `durationSeconds = 0` from a
finite camera pose is terminated by any tick strictly after its start
time: the raw progress is `Infinity`, which passes `t >= 1` and clamps to
`1`, so the tick resolves to the terminal pose, clears the transition,
re-enables manual input, and invokes `onArrive` exactly once (later ticks
are no-ops). (As stated the claim is false: negative durations never
terminate, and a zero-duration tick exactly at the start time computes
`0/0 = NaN` and does not terminate either.) -/
theorem zeroDuration_firstTick_completes (w : World) (p : Pose) (cb : Option ℕ)
    (st now : ℚ) (cp ct : Vec3)
    (hcp : w.cameraPos = JVec3.ofRat cp) (hct : w.controlsTarget = JVec3.ofRat ct)
    (hnow : st < now) :
    (applyFly now (flyToPreset p 0 cb st w)).cameraPos = JVec3.ofRat p.pos
    ∧ (applyFly now (flyToPreset p 0 cb st w)).controlsTarget = JVec3.ofRat p.target
    ∧ (applyFly now (flyToPreset p 0 cb st w)).fly = none
    ∧ (applyFly now (flyToPreset p 0 cb st w)).controlsEnabled = true
    ∧ (applyFly now (flyToPreset p 0 cb st w)).arrivals = w.arrivals ++ cb.toList
    ∧ ∀ m, applyFly m (applyFly now (flyToPreset p 0 cb st w))
        = applyFly now (flyToPreset p 0 cb st w) := by
  have hf : (flyToPreset p 0 cb st w).fly
      = some ⟨st, 0, JVec3.ofRat cp, JVec3.ofRat p.pos, JVec3.ofRat ct,
          JVec3.ofRat p.target, cb⟩ := by
    simp [flyToPreset, hcp, hct]
  have hz := applyFly_zero_proj now st (JVec3.ofRat cp) (JVec3.ofRat p.pos)
    (JVec3.ofRat ct) (JVec3.ofRat p.target) cb (flyToPreset p 0 cb st w) hf hnow
  rw [hz]
  refine ⟨?_, ?_, rfl, rfl, rfl, ?_⟩
  · show jlerpV (JVec3.ofRat cp) (JVec3.ofRat p.pos) (fin 1) = JVec3.ofRat p.pos
    rw [jlerpV_ofRat, ratLerpV_one]
  · show jlerpV (JVec3.ofRat ct) (JVec3.ofRat p.target) (fin 1) = JVec3.ofRat p.target
    rw [jlerpV_ofRat, ratLerpV_one]
  · intro m
    exact applyFly_none rfl m

/-- Witness for the amended C1 theorem at a concrete input. -/
theorem zeroDuration_firstTick_completes_witness :
    (applyFly 1 (flyToPreset ⟨⟨10, 0, 0⟩, ⟨0, 0, 0⟩⟩ 0 (some 7) 0 w0)).cameraPos
        = JVec3.ofRat ⟨10, 0, 0⟩
    ∧ (applyFly 1 (flyToPreset ⟨⟨10, 0, 0⟩, ⟨0, 0, 0⟩⟩ 0 (some 7) 0 w0)).fly = none := by
  have h := zeroDuration_firstTick_completes w0 ⟨⟨10, 0, 0⟩, ⟨0, 0, 0⟩⟩ (some 7) 0 1
    ⟨0, 0, 0⟩ ⟨0, 0, 0⟩ rfl rfl (by norm_num)
  exact ⟨h.1, h.2.2.1⟩

/-- C2: starting a second transition while one is in flight (with no
intervening tick) yields exactly the state a single start from the base
state would: the first transition's parameters are fully overwritten, the
new record interpolates from the current camera pose and orbit target,
and the superseded `onArrive` – if distinct and not already logged – is
never invoked by any later sequence of ticks. -/
theorem restart_drops_previous (w : World) (p1 p2 : Pose) (s1 s2 : ℚ)
    (cb1 cb2 : Option ℕ) (n1 n2 : ℚ) :
    flyToPreset p2 s2 cb2 n2 (flyToPreset p1 s1 cb1 n1 w) = flyToPreset p2 s2 cb2 n2 w
    ∧ (flyToPreset p2 s2 cb2 n2 w).fly
        = some ⟨n2, s2, w.cameraPos, JVec3.ofRat p2.pos, w.controlsTarget,
            JVec3.ofRat p2.target, cb2⟩
    ∧ ∀ k : ℕ, cb1 = some k → k ∉ w.arrivals → cb2 ≠ some k →
        ∀ ts : List ℚ,
          k ∉ (tickAll ts (flyToPreset p2 s2 cb2 n2
            (flyToPreset p1 s1 cb1 n1 w))).arrivals := by
  refine ⟨rfl, rfl, ?_⟩
  intro k hk1 hkw hk2 ts
  apply tickAll_not_mem k ts
  · exact hkw
  · intro f hfeq
    have hfF : (⟨n2, s2, w.cameraPos, JVec3.ofRat p2.pos, w.controlsTarget,
        JVec3.ofRat p2.target, cb2⟩ : Fly) = f := Option.some.inj hfeq
    rw [← hfF]
    exact hk2

/-- Witness for C2 at a concrete input. -/
theorem restart_drops_previous_witness :
    flyToPreset ⟨⟨5, 5, 5⟩, ⟨0, 0, 0⟩⟩ 1 (some 2) 0
        (flyToPreset ⟨⟨9, 9, 9⟩, ⟨1, 1, 1⟩⟩ 1 (some 1) 0 w0)
      = flyToPreset ⟨⟨5, 5, 5⟩, ⟨0, 0, 0⟩⟩ 1 (some 2) 0 w0
    ∧ 1 ∉ (tickAll [2000] (flyToPreset ⟨⟨5, 5, 5⟩, ⟨0, 0, 0⟩⟩ 1 (some 2) 0
        (flyToPreset ⟨⟨9, 9, 9⟩, ⟨1, 1, 1⟩⟩ 1 (some 1) 0 w0))).arrivals := by
  have h := restart_drops_previous w0 ⟨⟨9, 9, 9⟩, ⟨1, 1, 1⟩⟩ ⟨⟨5, 5, 5⟩, ⟨0, 0, 0⟩⟩
    1 1 (some 1) (some 2) 0 0
  exact ⟨h.1, h.2.2 1 rfl (by simp [w0]) (by simp) [2000]⟩

/-- C3: for a positive duration from finite poses, the tick at the start
time yields the from-pose (position and target), and any tick at or after
`startTime + durationSeconds*1000` yields the terminal pose, clears the
transition (`isActive` false), re-enables input, appends `onArrive` to the
arrival log exactly once, and later ticks change nothing. -/
theorem posDuration_endpoints (w : World) (st sec : ℚ) (fp tp ft tg : Vec3)
    (cb : Option ℕ) (hsec : 0 < sec)
    (hf : w.fly = some ⟨st, sec, JVec3.ofRat fp, JVec3.ofRat tp, JVec3.ofRat ft,
      JVec3.ofRat tg, cb⟩) :
    (applyFly st w).cameraPos = JVec3.ofRat fp
    ∧ (applyFly st w).controlsTarget = JVec3.ofRat ft
    ∧ ∀ now, st + sec * 1000 ≤ now →
        (applyFly now w).cameraPos = JVec3.ofRat tp
        ∧ (applyFly now w).controlsTarget = JVec3.ofRat tg
        ∧ (applyFly now w).fly = none
        ∧ (applyFly now w).controlsEnabled = true
        ∧ (applyFly now w).arrivals = w.arrivals ++ cb.toList
        ∧ ∀ m, applyFly m (applyFly now w) = applyFly now w := by
  have hsec' : sec ≠ 0 := ne_of_gt hsec
  have hpos : (0 : ℚ) < sec * 1000 := by positivity
  have hstart := applyFly_proj st st sec fp tp ft tg cb w hf hsec'
  rw [if_neg (by rw [sub_self, zero_div]; norm_num)] at hstart
  have hc0 : clamp01 ((st - st) / (sec * 1000)) = 0 := by
    rw [sub_self, zero_div, clamp01_zero]
  refine ⟨?_, ?_, ?_⟩
  · rw [hstart]
    show JVec3.ofRat (ratLerpV fp tp (easeInOutCubic (clamp01 ((st - st) / (sec * 1000)))))
      = JVec3.ofRat fp
    rw [hc0, easeInOutCubic_zero, ratLerpV_zero]
  · rw [hstart]
    show JVec3.ofRat (ratLerpV ft tg (easeInOutCubic (clamp01 ((st - st) / (sec * 1000)))))
      = JVec3.ofRat ft
    rw [hc0, easeInOutCubic_zero, ratLerpV_zero]
  · intro now hnow
    have hq : 1 ≤ (now - st) / (sec * 1000) := by
      rw [le_div_iff₀ hpos]
      linarith
    have hp := applyFly_proj now st sec fp tp ft tg cb w hf hsec'
    rw [if_pos hq] at hp
    rw [hp]
    refine ⟨?_, ?_, rfl, rfl, rfl, ?_⟩
    · show JVec3.ofRat (ratLerpV fp tp (easeInOutCubic (clamp01 ((now - st) / (sec * 1000)))))
        = JVec3.ofRat tp
      rw [clamp01_of_one_le hq, easeInOutCubic_one, ratLerpV_one]
    · show JVec3.ofRat (ratLerpV ft tg (easeInOutCubic (clamp01 ((now - st) / (sec * 1000)))))
        = JVec3.ofRat tg
      rw [clamp01_of_one_le hq, easeInOutCubic_one, ratLerpV_one]
    · intro m
      exact applyFly_none rfl m

/-- Witness for C3 at a concrete input. -/
theorem posDuration_endpoints_witness :
    (applyFly 0 (flyToPreset ⟨⟨10, 0, 0⟩, ⟨0, 0, 0⟩⟩ 1 (some 3) 0 w0)).cameraPos
        = JVec3.ofRat ⟨0, 0, 0⟩
    ∧ (applyFly 1000 (flyToPreset ⟨⟨10, 0, 0⟩, ⟨0, 0, 0⟩⟩ 1 (some 3) 0 w0)).fly = none := by
  have h := posDuration_endpoints (flyToPreset ⟨⟨10, 0, 0⟩, ⟨0, 0, 0⟩⟩ 1 (some 3) 0 w0)
    0 1 ⟨0, 0, 0⟩ ⟨10, 0, 0⟩ ⟨0, 0, 0⟩ ⟨0, 0, 0⟩ (some 3) (by norm_num) rfl
  exact ⟨h.1, (h.2.2 1000 (by norm_num)).2.2.1⟩

/-- C4: for every active transition with nonzero duration (so that the
normalized-progress division is defined) and every tick time, the written
position and look-at target are each the linear interpolation of the
corresponding from/to vectors by the same eased value
`easeInOutCubic (clamp01 ((now - startTime) / (durationSeconds * 1000)))`,
where `easeInOutCubic` is the two-branch cubic of the claim and `clamp01`
clamps into `[0, 1]`. -/
theorem tick_formula (w : World) (st sec : ℚ) (fp tp ft tg : Vec3) (cb : Option ℕ)
    (now : ℚ) (hsec : sec ≠ 0)
    (hf : w.fly = some ⟨st, sec, JVec3.ofRat fp, JVec3.ofRat tp, JVec3.ofRat ft,
      JVec3.ofRat tg, cb⟩) :
    (applyFly now w).cameraPos
      = JVec3.ofRat (ratLerpV fp tp (easeInOutCubic (clamp01 ((now - st) / (sec * 1000)))))
    ∧ (applyFly now w).controlsTarget
      = JVec3.ofRat (ratLerpV ft tg (easeInOutCubic (clamp01 ((now - st) / (sec * 1000)))))
    ∧ (∀ t : ℚ, easeInOutCubic t = if t < 1/2 then 4 * t * t * t else 1 - (-2 * t + 2) ^ 3 / 2)
    ∧ (∀ t : ℚ, clamp01 t = min 1 (max 0 t)) := by
  have hp := applyFly_proj now st sec fp tp ft tg cb w hf hsec
  refine ⟨?_, ?_, fun t => rfl, fun t => rfl⟩
  · rw [hp]; split_ifs <;> rfl
  · rw [hp]; split_ifs <;> rfl

/-- Witness for C4 at a concrete input. -/
theorem tick_formula_witness :
    (applyFly 500 (flyToPreset ⟨⟨10, 0, 0⟩, ⟨0, 0, 0⟩⟩ 1 none 0 w0)).cameraPos
      = JVec3.ofRat (ratLerpV ⟨0, 0, 0⟩ ⟨10, 0, 0⟩
          (easeInOutCubic (clamp01 ((500 - 0) / (1 * 1000))))) :=
  (tick_formula (flyToPreset ⟨⟨10, 0, 0⟩, ⟨0, 0, 0⟩⟩ 1 none 0 w0) 0 1
    ⟨0, 0, 0⟩ ⟨10, 0, 0⟩ ⟨0, 0, 0⟩ ⟨0, 0, 0⟩ none 500 (by norm_num) rfl).1

/-- C5 (counterexample): the tick of a zero-duration transition exactly at
its start time computes raw progress `0/0 = NaN`; `NaN` propagates through
clamping, easing and the lerp, so the written camera position is the `NaN`
vector — not a convex combination of the from-pose and the to-pose. -/
theorem nanTick_pose_not_convex :
    ¬ ∃ e : ℚ, 0 ≤ e ∧ e ≤ 1 ∧
      (applyFly 5 (flyToPreset ⟨⟨10, 0, 0⟩, ⟨0, 0, 0⟩⟩ 0 none 5 w0)).cameraPos
        = JVec3.ofRat (convexV ⟨0, 0, 0⟩ ⟨10, 0, 0⟩ e) := by
  have hf : (flyToPreset ⟨⟨10, 0, 0⟩, ⟨0, 0, 0⟩⟩ 0 none 5 w0).fly
      = some ⟨5, 0, JVec3.ofRat ⟨0, 0, 0⟩, JVec3.ofRat ⟨10, 0, 0⟩,
          JVec3.ofRat ⟨0, 0, 0⟩, JVec3.ofRat ⟨0, 0, 0⟩, none⟩ := rfl
  have h0 : jdiv (fin ((5 : ℚ) - 5)) (fin ((0 : ℚ) * 1000)) = nan := by
    rw [sub_self, zero_mul]
    exact jdiv_fin_zero_zero
  have hx : (applyFly 5 (flyToPreset ⟨⟨10, 0, 0⟩, ⟨0, 0, 0⟩⟩ 0 none 5 w0)).cameraPos
      = ⟨nan, nan, nan⟩ := by
    simp only [applyFly, hf, h0, jmax0_nan, jmin1_nan, easeJ_nan, jge1_nan,
      jlerpV_nan, Bool.false_eq_true, if_false]
  rintro ⟨e, -, -, h⟩
  rw [hx] at h
  have := congrArg (fun v => v.x) h
  simp only [JVec3.ofRat] at this
  exact JRat.noConfusion this

/-- C5 (amended): the eased progress is monotonically non-decreasing and
stays in `[0, 1]` on `[0, 1]`; and every tick of an active transition with
finite from/to poses writes a pose that is a convex combination of the
from-pose and the to-pose — except the degenerate tick of a zero-duration
transition exactly at its start time, whose `0/0` progress is `NaN`. -/
theorem ease_mono_and_pose_convex :
    (∀ t1 t2 : ℚ, 0 ≤ t1 → t1 ≤ t2 → t2 ≤ 1 → easeInOutCubic t1 ≤ easeInOutCubic t2)
    ∧ (∀ t : ℚ, 0 ≤ t → t ≤ 1 → 0 ≤ easeInOutCubic t ∧ easeInOutCubic t ≤ 1)
    ∧ (∀ (w : World) (st sec : ℚ) (fp tp ft tg : Vec3) (cb : Option ℕ) (now : ℚ),
        w.fly = some ⟨st, sec, JVec3.ofRat fp, JVec3.ofRat tp, JVec3.ofRat ft,
          JVec3.ofRat tg, cb⟩ →
        (sec ≠ 0 ∨ now ≠ st) →
        ∃ e : ℚ, 0 ≤ e ∧ e ≤ 1
          ∧ (applyFly now w).cameraPos = JVec3.ofRat (convexV fp tp e)
          ∧ (applyFly now w).controlsTarget = JVec3.ofRat (convexV ft tg e)) := by
  refine ⟨fun t1 t2 a b c => easeInOutCubic_mono a b c,
    fun t a b => easeInOutCubic_mem a b, ?_⟩
  intro w st sec fp tp ft tg cb now hf hcase
  by_cases hsec : sec = 0
  · subst hsec
    rcases hcase with h | hne
    · exact absurd rfl h
    · rcases lt_or_gt_of_ne hne with hlt | hgt
      · have hz := applyFly_zero_neg_proj now st (JVec3.ofRat fp) (JVec3.ofRat tp)
          (JVec3.ofRat ft) (JVec3.ofRat tg) cb w hf hlt
        refine ⟨0, le_rfl, by norm_num, ?_, ?_⟩
        · rw [hz]
          show jlerpV (JVec3.ofRat fp) (JVec3.ofRat tp) (fin 0)
            = JVec3.ofRat (convexV fp tp 0)
          rw [jlerpV_ofRat, ratLerpV_eq_convexV]
        · rw [hz]
          show jlerpV (JVec3.ofRat ft) (JVec3.ofRat tg) (fin 0)
            = JVec3.ofRat (convexV ft tg 0)
          rw [jlerpV_ofRat, ratLerpV_eq_convexV]
      · have hz := applyFly_zero_proj now st (JVec3.ofRat fp) (JVec3.ofRat tp)
          (JVec3.ofRat ft) (JVec3.ofRat tg) cb w hf hgt
        refine ⟨1, by norm_num, le_rfl, ?_, ?_⟩
        · rw [hz]
          show jlerpV (JVec3.ofRat fp) (JVec3.ofRat tp) (fin 1)
            = JVec3.ofRat (convexV fp tp 1)
          rw [jlerpV_ofRat, ratLerpV_eq_convexV]
        · rw [hz]
          show jlerpV (JVec3.ofRat ft) (JVec3.ofRat tg) (fin 1)
            = JVec3.ofRat (convexV ft tg 1)
          rw [jlerpV_ofRat, ratLerpV_eq_convexV]
  · have hp := applyFly_proj now st sec fp tp ft tg cb w hf hsec
    have hcl := clamp01_mem ((now - st) / (sec * 1000))
    have hee := easeInOutCubic_mem hcl.1 hcl.2
    refine ⟨easeInOutCubic (clamp01 ((now - st) / (sec * 1000))), hee.1, hee.2, ?_, ?_⟩
    · rw [hp]
      split_ifs
      · show JVec3.ofRat (ratLerpV fp tp _) = _
        rw [ratLerpV_eq_convexV]
      · show JVec3.ofRat (ratLerpV fp tp _) = _
        rw [ratLerpV_eq_convexV]
    · rw [hp]
      split_ifs
      · show JVec3.ofRat (ratLerpV ft tg _) = _
        rw [ratLerpV_eq_convexV]
      · show JVec3.ofRat (ratLerpV ft tg _) = _
        rw [ratLerpV_eq_convexV]

/-- Witness for the amended C5 theorem at concrete inputs. -/
theorem ease_mono_and_pose_convex_witness :
    easeInOutCubic (1/4) ≤ easeInOutCubic (3/4)
    ∧ ∃ e : ℚ, 0 ≤ e ∧ e ≤ 1
        ∧ (applyFly 500 (flyToPreset ⟨⟨10, 0, 0⟩, ⟨0, 0, 0⟩⟩ 1 none 0 w0)).cameraPos
            = JVec3.ofRat (convexV ⟨0, 0, 0⟩ ⟨10, 0, 0⟩ e)
        ∧ (applyFly 500 (flyToPreset ⟨⟨10, 0, 0⟩, ⟨0, 0, 0⟩⟩ 1 none 0 w0)).controlsTarget
            = JVec3.ofRat (convexV ⟨0, 0, 0⟩ ⟨0, 0, 0⟩ e) :=
  ⟨ease_mono_and_pose_convex.1 (1/4) (3/4) (by norm_num) (by norm_num) (by norm_num),
    ease_mono_and_pose_convex.2.2 (flyToPreset ⟨⟨10, 0, 0⟩, ⟨0, 0, 0⟩⟩ 1 none 0 w0)
      0 1 ⟨0, 0, 0⟩ ⟨10, 0, 0⟩ ⟨0, 0, 0⟩ ⟨0, 0, 0⟩ none 500 rfl (Or.inl (by norm_num))⟩

/-- C6: for the scenario start((0,0,0)->(10,0,0), 1 s) the tick 500 ms in
has raw progress `1/2`, both cubic branches of the easing agree there with
value `1/2`, and the written camera position is `(5, 0, 0)`. -/
theorem midpoint_scenario :
    ((500 : ℚ) - 0) / (1 * 1000) = 1/2
    ∧ easeInOutCubic (1/2) = 1/2
    ∧ (4 * (1/2) * (1/2) * (1/2) : ℚ) = 1/2
    ∧ ((1 : ℚ) - (-2 * (1/2) + 2) ^ 3 / 2) = 1/2
    ∧ (applyFly 500 (flyToPreset ⟨⟨10, 0, 0⟩, ⟨0, 0, 0⟩⟩ 1 none 0 w0)).cameraPos
        = JVec3.ofRat ⟨5, 0, 0⟩ := by
  refine ⟨by norm_num, by norm_num [easeInOutCubic], by norm_num, by norm_num, ?_⟩
  norm_num [applyFly, flyToPreset, w0, jdiv_fin_of_ne, easeJ_fin, easeInOutCubic,
    JVec3.ofRat, jlerpV]

/-- C7: in every state reachable by the event loop from the post-load
state, manual input is enabled exactly when no transition is in flight;
the `fly` slot holds at most one transition; every start call disables
manual input and installs a transition; and a tick re-enables input
exactly when it completes the transition, leaving the gate untouched
otherwise. -/
theorem gate_invariant :
    (∀ (mobilePortrait : Bool) (ops : List Op),
        ((runAll ops (initialWorld mobilePortrait)).controlsEnabled = true
          ↔ (runAll ops (initialWorld mobilePortrait)).fly = none))
    ∧ (∀ w : World, w.fly = none ∨ ∃ f, w.fly = some f)
    ∧ (∀ (p : Pose) (s : ℚ) (cb : Option ℕ) (n : ℚ) (w : World),
        (flyToPreset p s cb n w).controlsEnabled = false
          ∧ (flyToPreset p s cb n w).fly ≠ none)
    ∧ (∀ (n : ℚ) (w : World) (f : Fly), w.fly = some f →
        (((applyFly n w).fly = none → (applyFly n w).controlsEnabled = true)
          ∧ ((applyFly n w).fly ≠ none →
              (applyFly n w).controlsEnabled = w.controlsEnabled))) := by
  refine ⟨?_, ?_, ?_, ?_⟩
  · intro mp ops
    exact runAll_enabled_iff ops (initialWorld mp) (by simp [initialWorld])
  · intro w
    cases hw : w.fly with
    | none => exact Or.inl rfl
    | some f => exact Or.inr ⟨f, rfl⟩
  · intro p s cb n w
    exact ⟨rfl, by simp [flyToPreset]⟩
  · intro n w f hw
    constructor
    · intro hnone
      rcases applyFly_structure n w with ⟨-, hfly, -, -⟩ | ⟨g, -, -, hen, -, -⟩
      · rw [hfly, hw] at hnone
        exact absurd hnone (by simp)
      · exact hen
    · intro hsome
      rcases applyFly_structure n w with ⟨-, -, hen, -⟩ | ⟨g, -, hfly, -, -, -⟩
      · exact hen
      · exact absurd hfly hsome

/-- Witness for C7 at a concrete input: a completing tick re-enables the
gate. -/
theorem gate_invariant_witness :
    (applyFly 2000 (flyToPreset ⟨⟨10, 0, 0⟩, ⟨0, 0, 0⟩⟩ 1 none 0 w0)).controlsEnabled
      = true := by
  have hp := applyFly_proj 2000 0 1 ⟨0, 0, 0⟩ ⟨10, 0, 0⟩ ⟨0, 0, 0⟩ ⟨0, 0, 0⟩ none
    (flyToPreset ⟨⟨10, 0, 0⟩, ⟨0, 0, 0⟩⟩ 1 none 0 w0) rfl (by norm_num)
  rw [if_pos (by norm_num)] at hp
  exact (gate_invariant.2.2.2 2000 (flyToPreset ⟨⟨10, 0, 0⟩, ⟨0, 0, 0⟩⟩ 1 none 0 w0)
    ⟨0, 1, JVec3.ofRat ⟨0, 0, 0⟩, JVec3.ofRat ⟨10, 0, 0⟩, JVec3.ofRat ⟨0, 0, 0⟩,
      JVec3.ofRat ⟨0, 0, 0⟩, none⟩ rfl).1 (by rw [hp])

/-- C8: the interaction flag starts false, every manual-input event sets
it to true idempotently, no operation of the event loop ever resets it,
and after one mark any further event sequence leaves it true. -/
theorem interaction_flag_one_way :
    (∀ mobilePortrait : Bool, (initialWorld mobilePortrait).userInteracted = false)
    ∧ (∀ w : World, (run Op.mark w).userInteracted = true)
    ∧ (∀ w : World, run Op.mark (run Op.mark w) = run Op.mark w)
    ∧ (∀ (o : Op) (w : World), w.userInteracted = true → (run o w).userInteracted = true)
    ∧ (∀ (ops : List Op) (w : World), (runAll ops (run Op.mark w)).userInteracted = true) :=
  ⟨fun _ => rfl, fun _ => rfl, fun _ => rfl,
    fun o w h => run_userInteracted_mono o w h,
    fun ops w => runAll_userInteracted_mono ops (run Op.mark w) rfl⟩

/-- Witness for C8 at a concrete input. -/
theorem interaction_flag_one_way_witness :
    (run (Op.tick 0) (run Op.mark w0)).userInteracted = true :=
  interaction_flag_one_way.2.2.2.1 (Op.tick 0) (run Op.mark w0)
    (interaction_flag_one_way.2.1 w0)

/-- C9: the easing function is symmetric about the midpoint
(`ease (1 - t) = 1 - ease t` for every rational `t`, in particular on
`[0, 1]`), with `ease 0 = 0` and `ease 1 = 1`. -/
theorem ease_symmetric :
    (∀ t : ℚ, easeInOutCubic (1 - t) = 1 - easeInOutCubic t)
    ∧ easeInOutCubic 0 = 0 ∧ easeInOutCubic 1 = 1 := by
  refine ⟨fun t => ?_, easeInOutCubic_zero, easeInOutCubic_one⟩
  unfold easeInOutCubic
  split_ifs with h1 h2 h2
  · exact absurd h1 (by linarith)
  · ring
  · ring
  · have ht : t = 1/2 := le_antisymm (by linarith) (by linarith)
    subst ht
    norm_num

/-- C10: a tick while no transition is active is a no-op on the whole
world: camera position, orbit target, input gate, interaction flag and
arrival log are all unchanged. -/
theorem idle_tick_noop (w : World) (now : ℚ) (h : w.fly = none) :
    applyFly now w = w :=
  applyFly_none h now

/-- Witness for C10 at a concrete input. -/
theorem idle_tick_noop_witness : applyFly 7 w0 = w0 :=
  idle_tick_noop w0 7 rfl

end SkyCity
